import Mathlib

/-!
Shallow embedding of the repository's data pipeline (`src/ethusdt_1min.py`).

The script downloads monthly Binance archive files for a perpetual-futures
symbol, normalizes each series to a canonical per-minute schema keyed by
`timestamp_utc`, polls a paginated open-interest endpoint, left-joins the
secondary series onto the primary OHLCV frame, forward-fills the funding
rate, sorts and deduplicates by timestamp, and saves the result.

Modelling conventions used throughout:
  * machine floats of the script are modelled as rationals (ℚ);
  * `pd.to_datetime(ms, unit="ms", utc=True)` keeps the epoch-millisecond
    integer, so `timestamp_utc : Nat`;
  * a pandas DataFrame is a `List` of row structures; its set of columns is
    tracked separately (`mergedColumns`) where a claim is about the schema;
  * network responses are supplied as explicit inputs (a function from
    attempt number to outcome for the retrying downloader, a function from
    the `startTime` cursor to a page for the open-interest endpoint);
  * `pd.concat`/thread-pool fan-in is a list of per-file row batches;
    the order of completion does not matter downstream because every
    consumer re-sorts by timestamp, exactly as the script assumes.
-/

/-- One raw row of a monthly klines CSV, columns in file order
(`ethusdt_1min.py` line 127).  `open_time` is the result of
`pd.to_numeric(..., errors='coerce')`: `none` models a stray header cell
that fails numeric coercion (line 131). -/
structure RawKline where
  open_time : Option Nat
  «open» : ℚ
  high : ℚ
  low : ℚ
  close : ℚ
  volume : ℚ
  close_time : Nat
  quote_volume : ℚ
  num_trades : Int
  taker_buy_base_vol : ℚ
  taker_buy_quote_vol : ℚ
  ignore : ℚ
deriving DecidableEq

/-- One normalized primary-series row after Step 1 of the script
(lines 127-147): coercion, `dropna`, timestamp conversion, column drops,
type casts and the two derived taker-sell columns. -/
structure KRow where
  «open» : ℚ
  high : ℚ
  low : ℚ
  close : ℚ
  volume : ℚ
  quote_volume : ℚ
  num_trades : Int
  taker_buy_base_vol : ℚ
  taker_buy_quote_vol : ℚ
  timestamp_utc : Nat
  taker_sell_base_vol : ℚ
  taker_sell_quote_vol : ℚ
deriving DecidableEq

/-- One raw row of a monthly mark-price or index-price klines CSV,
columns in file order (lines 158-159 / 179-180): only the first five
columns are kept by the script, the rest are provider placeholders. -/
structure RawMark where
  open_time : Option Nat
  «open» : ℚ
  high : ℚ
  low : ℚ
  close : ℚ
  ignore1 : ℚ
  close_time : Nat
  ignore2 : ℚ
  ignore3 : ℚ
  ignore4 : ℚ
  ignore5 : ℚ
  ignore6 : ℚ
deriving DecidableEq

/-- The four OHLC fields kept from a mark-price or index-price row
(lines 166 and 187). -/
structure PriceOHLC where
  «open» : ℚ
  high : ℚ
  low : ℚ
  close : ℚ
deriving DecidableEq

/-- One raw row of a monthly funding-rate CSV (header-bearing; the script
uses its `fundingTime` and `fundingRate` columns, lines 218 and 226). -/
structure RawFund where
  fundingTime : Nat
  fundingRate : ℚ
deriving DecidableEq

/-- One JSON object returned by the open-interest snapshot endpoint:
`timestamp` (epoch ms) and `sumOpenInterest` (lines 250 and 258-259). -/
structure OISnap where
  timestamp : Nat
  sumOpenInterest : ℚ
deriving DecidableEq

/-- One row of the merged table: the primary kline row plus the four
optional secondary columns added by Step 6.  `none` is a pandas `NaN`
cell for a secondary column. -/
structure MRow where
  k : KRow
  mark : Option PriceOHLC
  index : Option PriceOHLC
  fundingRate : Option ℚ
  open_interest : Option ℚ
deriving DecidableEq

/-- The merge key of a merged row (`timestamp_utc` column). -/
def MRow.timestamp_utc (r : MRow) : Nat :=
  r.k.timestamp_utc

/-- Outcome of one HTTP attempt inside `download_single_file`:
either a transport exception raised by `requests.get`, or a response
with a status code and a body. -/
inductive Resp (β : Type) where
  | err : Resp β
  | ok (status : Nat) (body : β) : Resp β
deriving DecidableEq

/-- The retry loop of `download_single_file` (lines 30-43), one step per
remaining attempt.  `resp attempt` is the outcome of the HTTP request made
on that attempt.  A 200 returns the body, a 404 returns `none` (month not
published), any other status sleeps and retries, an exception retries
unless this was the last attempt; falling off the loop returns `none`. -/
def downloadAux (resp : Nat → Resp β) (retries : Nat) : Nat → Nat → Option β
  | 0, _ => none
  | fuel + 1, attempt =>
    match resp attempt with
    | Resp.ok status body =>
      if status = 200 then some body
      else if status = 404 then none
      else downloadAux resp retries fuel (attempt + 1)
    | Resp.err =>
      if attempt = retries - 1 then none
      else downloadAux resp retries fuel (attempt + 1)

/-- The function `download_single_file(url, retries)` (lines 28-43), with the sequence
of per-attempt outcomes for the URL supplied explicitly. -/
def download_single_file (resp : Nat → Resp β) (retries : Nat) : Option β :=
  downloadAux resp retries retries 0

/-- Tail of `fetch_binance_zip_parallel` (lines 85-88): the fan-in of the
worker pool produces a list of successfully decoded per-file row batches;
the function returns `None` when no batch was collected, else their
concatenation (`pd.concat`). -/
def fetch_binance_zip_parallel (dfs : List (List α)) : Option (List α) :=
  if dfs.isEmpty then none else some dfs.flatten

/-- Step 1 normalization of the primary series (lines 127-147):
drop rows whose `open_time` failed numeric coercion, convert the epoch
milliseconds to the timestamp key, drop `ignore`/`close_time`/`open_time`,
and derive `taker_sell_base_vol = volume - taker_buy_base_vol` and
`taker_sell_quote_vol = quote_volume - taker_buy_quote_vol`. -/
def normalizeKlines (raw : List RawKline) : List KRow :=
  raw.filterMap fun r =>
    r.open_time.map fun t =>
      { «open» := r.«open», high := r.high, low := r.low, close := r.close,
        volume := r.volume, quote_volume := r.quote_volume,
        num_trades := r.num_trades,
        taker_buy_base_vol := r.taker_buy_base_vol,
        taker_buy_quote_vol := r.taker_buy_quote_vol,
        timestamp_utc := t,
        taker_sell_base_vol := r.volume - r.taker_buy_base_vol,
        taker_sell_quote_vol := r.quote_volume - r.taker_buy_quote_vol }

/-- Step 2/3 normalization of a mark-price or index-price series
(lines 158-167 / 179-188): coercion, `dropna`, timestamp conversion and
restriction to the four OHLC columns, keyed by `timestamp_utc`. -/
def normalizeMark (raw : List RawMark) : List (Nat × PriceOHLC) :=
  raw.filterMap fun r =>
    r.open_time.map fun t =>
      (t, { «open» := r.«open», high := r.high, low := r.low, close := r.close })

/-- Step 4 normalization of the funding-rate series (lines 218-227):
select `fundingTime`/`fundingRate`, rename the time column to
`timestamp_utc`. -/
def normalizeFunding (raw : List RawFund) : List (Nat × ℚ) :=
  raw.map fun r => (r.fundingTime, r.fundingRate)

/-- The count produced by `df['timestamp_utc'].duplicated().sum()`
(line 101): the number of rows whose key already appeared earlier.
`seen` accumulates the keys of the rows already scanned. -/
def duplicatedCount (key : α → Nat) (seen : List Nat) : List α → Nat
  | [] => 0
  | r :: rs =>
    (if key r ∈ seen then 1 else 0) + duplicatedCount key (key r :: seen) rs

/-- The call `drop_duplicates(subset=['timestamp_utc'], keep='first')`
(lines 104 and 295): keep each row whose key has not been seen before,
preserving input order. -/
def dropDuplicatesBy (key : α → Nat) (seen : List Nat) : List α → List α
  | [] => []
  | r :: rs =>
    if key r ∈ seen then dropDuplicatesBy key seen rs
    else r :: dropDuplicatesBy key (key r :: seen) rs

/-- Duplicate removal keeping the first occurrence. -/
def dedupeBy (key : α → Nat) (l : List α) : List α :=
  dropDuplicatesBy key [] l

/-- The function `validate_data` (lines 90-116).  The null-count report, gap report and
row-count print are console diagnostics with no effect on the returned
frame; the only data-changing step is the conditional duplicate removal
of lines 101-104.  All call sites pass a frame that has the
`timestamp_utc` column, supplied here as `key`. -/
def validate_data (key : α → Nat) (df : List α) : List α :=
  if 0 < duplicatedCount key [] df then dedupeBy key df else df

/-- Insertion of one row into a run already sorted by key (helper for the
model of `sort_values`). -/
def orderedInsertKey (key : α → Nat) (a : α) : List α → List α
  | [] => [a]
  | b :: l =>
    if key a ≤ key b then a :: b :: l
    else b :: orderedInsertKey key a l

/-- The call `sort_values("timestamp_utc")` (line 292), modelled as an insertion
sort by the key.  The script's quicksort is unstable; every property used
downstream (sortedness by the key, permutation of the rows) holds for any
sorting algorithm, so the choice of model sort is immaterial. -/
def sortByKey (key : α → Nat) : List α → List α
  | [] => []
  | a :: l => orderedInsertKey key a (sortByKey key l)

/-- Step 7 final clean-up (lines 292-295): sort by `timestamp_utc`, then
remove duplicate timestamps keeping the first occurrence. -/
def step7 (full : List MRow) : List MRow :=
  dedupeBy MRow.timestamp_utc (sortByKey MRow.timestamp_utc full)

/-- The call `full.merge(right, on="timestamp_utc", how="left")`: every left row is
kept in order; it is paired with each right row carrying the same key (in
right order), or with `none` when no right row matches. -/
def leftJoin (t : List α) (key : α → Nat) (s : List (Nat × β)) :
    List (α × Option β) :=
  t.flatMap fun r =>
    match s.filter (fun p => p.1 = key r) with
    | [] => [(r, none)]
    | p :: ps => (p :: ps).map fun q => (r, some q.2)

/-- A left merge followed by storing the matched value into one column of
the merged row (`set`). -/
def joinWith (t : List MRow) (s : List (Nat × β))
    (set : MRow → Option β → MRow) : List MRow :=
  (leftJoin t MRow.timestamp_utc s).map fun p => set p.1 p.2

/-- One step of `Series.ffill`: a non-null cell replaces the carried
value, a null cell inherits it. -/
def ffillStep (last cur : Option ℚ) : Option ℚ :=
  match cur with
  | some x => some x
  | none => last

/-- The call `full["fundingRate"].ffill()` (line 280), threading the last non-null
funding value through the rows in order. -/
def ffillFundingAux (last : Option ℚ) : List MRow → List MRow
  | [] => []
  | r :: rs =>
    { r with fundingRate := ffillStep last r.fundingRate } ::
      ffillFundingAux (ffillStep last r.fundingRate) rs

/-- Forward-fill of the `fundingRate` column, starting with no carried
value. -/
def ffillFunding (l : List MRow) : List MRow :=
  ffillFundingAux none l

/-- One conditional merge of Step 6 (`if <series> is not None:` guard,
lines 270-285): join the series when it is present, keep the frame
unchanged when its fetch produced no data. -/
def optJoin (s : Option (List (Nat × β))) (t : List MRow)
    (set : MRow → Option β → MRow) : List MRow :=
  match s with
  | some x => joinWith t x set
  | none => t

/-- The funding-rate merge of Step 6 (lines 278-281): when present, the
left join is followed immediately by the forward fill of the
`fundingRate` column; when absent, the frame is unchanged. -/
def optFundingStep (funding : Option (List (Nat × ℚ))) (t : List MRow) :
    List MRow :=
  match funding with
  | some f => ffillFunding (joinWith t f (fun r v => { r with fundingRate := v }))
  | none => t

/-- Step 6 (lines 267-285): start from a copy of the primary frame, then
conditionally left-join mark price, index price, funding rate (with its
forward fill) and open interest, in that order.  A series that is `none`
(its fetch produced no data) is skipped entirely. -/
def mergeAll (df : List KRow) (mark : Option (List (Nat × PriceOHLC)))
    (index : Option (List (Nat × PriceOHLC)))
    (funding : Option (List (Nat × ℚ))) (oi : Option (List (Nat × ℚ))) :
    List MRow :=
  optJoin oi
    (optFundingStep funding
      (optJoin index
        (optJoin mark (df.map fun r => MRow.mk r none none none none)
          (fun r v => { r with mark := v }))
        (fun r v => { r with index := v })))
    (fun r v => { r with open_interest := v })

/-- The primary-frame columns after Step 1, in pandas order. -/
def klineCols : List String :=
  ["open", "high", "low", "close", "volume", "quote_volume", "num_trades",
   "taker_buy_base_vol", "taker_buy_quote_vol", "timestamp_utc",
   "taker_sell_base_vol", "taker_sell_quote_vol"]

/-- Columns contributed by the mark-price merge. -/
def markCols : List String :=
  ["mark_open", "mark_high", "mark_low", "mark_close"]

/-- Columns contributed by the index-price merge. -/
def indexCols : List String :=
  ["index_open", "index_high", "index_low", "index_close"]

/-- The columns of the merged table: each `full.merge(...)` of Step 6 adds
the non-key columns of its right frame, and a skipped merge adds
nothing.  The flags record which of the four secondary merges ran. -/
def mergedColumns (mark index funding oi : Bool) : List String :=
  klineCols ++ (if mark then markCols else []) ++
    (if index then indexCols else []) ++
    (if funding then ["fundingRate"] else []) ++
    (if oi then ["open_interest"] else [])

/-- The whole pipeline from decoded download batches to the saved frame
and its column list.  Inputs are the per-file decoded batches collected
by the worker pools of Steps 1-4 and the snapshots collected by the
Step 5 polling loop.  The single `raise Exception("Failed to fetch
klines data!")` of line 125 is the only error exit; mark and index are
validated when present (Steps 2-3); `funding`/`df_oi` are `None` exactly
when their collections are empty (lines 223 and 255-256); Step 6 merges
and Step 7 sorts and deduplicates. -/
def runPipeline (klineBatches : List (List RawKline))
    (markBatches : List (List RawMark)) (indexBatches : List (List RawMark))
    (fundBatches : List (List RawFund)) (oi_data : List OISnap) :
    Except String (List MRow × List String) :=
  match fetch_binance_zip_parallel klineBatches with
  | none => Except.error "Failed to fetch klines data!"
  | some raw =>
    let df := validate_data KRow.timestamp_utc (normalizeKlines raw)
    let mark := (fetch_binance_zip_parallel markBatches).map fun r =>
      validate_data Prod.fst (normalizeMark r)
    let index := (fetch_binance_zip_parallel indexBatches).map fun r =>
      validate_data Prod.fst (normalizeMark r)
    let funding := (fetch_binance_zip_parallel fundBatches).map normalizeFunding
    let df_oi := if oi_data.isEmpty then none
      else some (oi_data.map fun s => (s.timestamp, s.sumOpenInterest))
    let full := step7 (mergeAll df mark index funding df_oi)
    Except.ok (full, mergedColumns mark.isSome index.isSome funding.isSome df_oi.isSome)

/-- The Step 5 polling loop (lines 238-253), with the endpoint supplied as
a map from the optional `startTime` parameter to the returned page (the
`limit` parameter is the fixed page size 500).  The loop breaks on an
empty page before extending, extends otherwise, breaks after extending
when the page is short, and else advances `startTime` to the last
snapshot's timestamp plus 60000 ms.  `fuel` bounds the number of
iterations so the model is total; every run of the script touches
finitely many pages.  The first component is the collected `oi_data`;
the second records the `startTime` of each request issued, so that the
number of requests can be stated. -/
def openInterestLoop (ep : Option Nat → List OISnap) :
    Nat → Option Nat → List OISnap × List (Option Nat)
  | 0, _ => ([], [])
  | fuel + 1, startTime =>
    let data := ep startTime
    if data.isEmpty then ([], [startTime])
    else if data.length < 500 then (data, [startTime])
    else
      let rest := openInterestLoop ep fuel
        (some ((data.getLastD (OISnap.mk 0 0)).timestamp + 60000))
      (data ++ rest.1, startTime :: rest.2)

/-- First match for a key in an association list, as produced by a left
merge against a right frame with unique keys. -/
def lookupKey (s : List (Nat × β)) (k : Nat) : Option β :=
  (s.find? (fun p => p.1 = k)).map Prod.snd

/-- The most recent non-null value in a list of optional cells (`none`
when every cell is null). -/
def lastSome (l : List (Option ℚ)) : Option ℚ :=
  (l.filterMap id).getLast?

/-! ### Sorting and duplicate removal (claims C1, C8) -/

lemma mem_orderedInsertKey (key : α → Nat) (a x : α) (l : List α) :
    x ∈ orderedInsertKey key a l ↔ x = a ∨ x ∈ l := by
  induction l with
  | nil => simp [orderedInsertKey]
  | cons b l ih =>
    simp only [orderedInsertKey]
    split
    · simp [List.mem_cons]
    · simp only [List.mem_cons, ih]
      tauto

lemma pairwise_le_orderedInsertKey (key : α → Nat) (a : α) (l : List α)
    (h : l.Pairwise fun x y => key x ≤ key y) :
    (orderedInsertKey key a l).Pairwise fun x y => key x ≤ key y := by
  induction l with
  | nil => simp [orderedInsertKey]
  | cons b l ih =>
    rw [List.pairwise_cons] at h
    obtain ⟨hb, hl⟩ := h
    simp only [orderedInsertKey]
    split
    · rename_i hab
      refine List.Pairwise.cons ?_ (List.Pairwise.cons hb hl)
      intro x hx
      rcases List.mem_cons.mp hx with rfl | hx
      · exact hab
      · exact le_trans hab (hb x hx)
    · rename_i hab
      push_neg at hab
      refine List.Pairwise.cons ?_ (ih hl)
      intro x hx
      rcases (mem_orderedInsertKey key a x l).mp hx with rfl | hx
      · exact le_of_lt hab
      · exact hb x hx

lemma pairwise_le_sortByKey (key : α → Nat) (l : List α) :
    (sortByKey key l).Pairwise fun x y => key x ≤ key y := by
  induction l with
  | nil => simp [sortByKey]
  | cons a l ih => exact pairwise_le_orderedInsertKey key a _ ih

lemma mem_sortByKey (key : α → Nat) (x : α) (l : List α) :
    x ∈ sortByKey key l ↔ x ∈ l := by
  induction l with
  | nil => simp [sortByKey]
  | cons a l ih => simp [sortByKey, mem_orderedInsertKey, ih]

lemma mem_of_mem_dropDuplicatesBy (key : α → Nat) (seen : List Nat)
    (l : List α) (x : α) (hx : x ∈ dropDuplicatesBy key seen l) : x ∈ l := by
  induction l generalizing seen with
  | nil => simp [dropDuplicatesBy] at hx
  | cons r rs ih =>
    simp only [dropDuplicatesBy] at hx
    split at hx
    · exact List.mem_cons_of_mem _ (ih _ hx)
    · rcases List.mem_cons.mp hx with rfl | hx
      · exact List.mem_cons_self _ _
      · exact List.mem_cons_of_mem _ (ih _ hx)

lemma key_notMem_seen_of_mem_dropDuplicatesBy (key : α → Nat)
    (seen : List Nat) (l : List α) (x : α)
    (hx : x ∈ dropDuplicatesBy key seen l) : key x ∉ seen := by
  induction l generalizing seen with
  | nil => simp [dropDuplicatesBy] at hx
  | cons r rs ih =>
    simp only [dropDuplicatesBy] at hx
    split at hx
    · exact ih _ hx
    · rcases List.mem_cons.mp hx with rfl | hx
      · assumption
      · intro hmem
        exact ih _ hx (List.mem_cons_of_mem _ hmem)

lemma pairwise_lt_dropDuplicatesBy (key : α → Nat) (seen : List Nat)
    (l : List α) (h : l.Pairwise fun x y => key x ≤ key y) :
    (dropDuplicatesBy key seen l).Pairwise fun x y => key x < key y := by
  induction l generalizing seen with
  | nil => simp [dropDuplicatesBy]
  | cons r rs ih =>
    rw [List.pairwise_cons] at h
    obtain ⟨hr, hrs⟩ := h
    simp only [dropDuplicatesBy]
    split
    · exact ih _ hrs
    · refine List.Pairwise.cons ?_ (ih _ hrs)
      intro x hx
      have h1 : key r ≤ key x := hr x (mem_of_mem_dropDuplicatesBy _ _ _ _ hx)
      have h2 : key x ∉ key r :: seen :=
        key_notMem_seen_of_mem_dropDuplicatesBy _ _ _ _ hx
      have h3 : key x ≠ key r := fun he => h2 (he ▸ List.mem_cons_self _ _)
      omega

/-- C1: after the Step 7 sort by `timestamp_utc` and duplicate removal
keeping the first occurrence, the `timestamp_utc` of every later row is
strictly greater than that of every earlier row: timestamps are strictly
increasing and unique across the whole merged table. -/
theorem step7_timestamps_strictly_increasing (full : List MRow) :
    (step7 full).Pairwise fun a b => a.timestamp_utc < b.timestamp_utc :=
  pairwise_lt_dropDuplicatesBy MRow.timestamp_utc [] _
    (pairwise_le_sortByKey MRow.timestamp_utc full)

/-- Witness for C1: the theorem applied to a concrete unsorted table with
a duplicated timestamp. -/
theorem step7_timestamps_strictly_increasing_witness :
    (step7
      [MRow.mk (KRow.mk 1 1 1 1 10 100 5 4 40 60000 6 60) none none none none,
       MRow.mk (KRow.mk 1 1 1 1 10 100 5 4 40 0 6 60) none none none none,
       MRow.mk (KRow.mk 2 2 2 2 10 100 5 4 40 0 6 60) none none none none]).Pairwise
      (fun a b => a.timestamp_utc < b.timestamp_utc) :=
  step7_timestamps_strictly_increasing _

/-! ### Left joins (claims C10, C3, C2) -/

lemma filter_key_eq_find_toList (s : List (Nat × β)) (k : Nat)
    (h : (s.map Prod.fst).Nodup) :
    s.filter (fun p => p.1 = k) = (s.find? (fun p => p.1 = k)).toList := by
  induction s with
  | nil => rfl
  | cons a s ih =>
    rw [List.map_cons, List.nodup_cons] at h
    obtain ⟨ha, hs⟩ := h
    by_cases hk : a.1 = k
    · rw [List.filter_cons_of_pos (by simpa using hk),
        List.find?_cons_of_pos _ (by simpa using hk)]
      have hnil : s.filter (fun p => p.1 = k) = [] := by
        rw [List.filter_eq_nil_iff]
        intro p hp
        simp only [decide_eq_true_eq]
        intro hpk
        apply ha
        have hmem : p.1 ∈ List.map Prod.fst s := List.mem_map_of_mem Prod.fst hp
        rw [hpk, ← hk] at hmem
        exact hmem
      rw [hnil]
      rfl
    · rw [List.filter_cons_of_neg (by simpa using hk),
        List.find?_cons_of_neg _ (by simpa using hk)]
      exact ih hs

lemma leftJoin_eq_map_lookup (t : List α) (key : α → Nat)
    (s : List (Nat × β)) (h : (s.map Prod.fst).Nodup) :
    leftJoin t key s = t.map fun r => (r, lookupKey s (key r)) := by
  induction t with
  | nil => rfl
  | cons r t ih =>
    have hstep : (match s.filter (fun p => p.1 = key r) with
        | [] => [(r, (none : Option β))]
        | p :: ps => (p :: ps).map fun q => (r, some q.2)) =
        [(r, lookupKey s (key r))] := by
      rw [filter_key_eq_find_toList s (key r) h]
      unfold lookupKey
      cases s.find? fun p => p.1 = key r with
      | none => rfl
      | some p => rfl
    calc leftJoin (r :: t) key s
        = (match s.filter (fun p => p.1 = key r) with
            | [] => [(r, (none : Option β))]
            | p :: ps => (p :: ps).map fun q => (r, some q.2)) ++
            leftJoin t key s := rfl
      _ = [(r, lookupKey s (key r))] ++
            t.map (fun r => (r, lookupKey s (key r))) := by rw [hstep, ih]
      _ = (r :: t).map fun r => (r, lookupKey s (key r)) := rfl

lemma fst_mem_of_mem_leftJoin (t : List α) (key : α → Nat)
    (s : List (Nat × β)) (q : α × Option β) (hq : q ∈ leftJoin t key s) :
    q.1 ∈ t := by
  unfold leftJoin at hq
  rw [List.mem_flatMap] at hq
  obtain ⟨r, hr, hq⟩ := hq
  rcases hfil : s.filter (fun p => p.1 = key r) with _ | ⟨p, ps⟩
  · rw [hfil] at hq
    rw [List.mem_singleton] at hq
    subst hq
    exact hr
  · rw [hfil] at hq
    rw [List.mem_map] at hq
    obtain ⟨u, hu, rfl⟩ := hq
    exact hr

/-- C10: a left merge against a secondary frame with unique
`timestamp_utc` keys is frame-preserving over the accumulated table: the
row count is unchanged and the previously present part of every row is
unchanged, the join only adding the secondary's (optional) value. -/
theorem leftJoin_frame_preserving (t : List α) (key : α → Nat)
    (s : List (Nat × β)) (h : (s.map Prod.fst).Nodup) :
    (leftJoin t key s).map Prod.fst = t ∧
      (leftJoin t key s).length = t.length := by
  rw [leftJoin_eq_map_lookup t key s h]
  constructor
  · rw [List.map_map,
      show (Prod.fst ∘ fun r => (r, lookupKey s (key r))) = (id : α → α) from rfl,
      List.map_id]
  · rw [List.length_map]

/-- Witness for C10: the theorem applied to a concrete two-row table and
a one-row secondary frame. -/
theorem leftJoin_frame_preserving_witness :
    (leftJoin [7, 13] (fun x => x) [(7, (5 : ℚ))]).map Prod.fst = [7, 13] ∧
      (leftJoin [7, 13] (fun x => x) [(7, (5 : ℚ))]).length = [7, 13].length :=
  leftJoin_frame_preserving [7, 13] (fun x => x) [(7, (5 : ℚ))] (by decide)

/-! ### Forward fill and the Step 6 merge (claim C3) -/

/-- The carried value of the forward fill after scanning a list of cells
left to right, starting from `last`. -/
def foldlLast (last : Option ℚ) (l : List (Option ℚ)) : Option ℚ :=
  l.foldl ffillStep last

lemma foldlLast_eq (last : Option ℚ) (l : List (Option ℚ)) :
    foldlLast last l =
      match lastSome l with
      | some x => some x
      | none => last := by
  induction l generalizing last with
  | nil => simp [foldlLast, lastSome]
  | cons v l ih =>
    have hstep : foldlLast last (v :: l) = foldlLast (ffillStep last v) l := by
      simp [foldlLast]
    rw [hstep, ih]
    cases v with
    | none =>
      have : lastSome (none :: l) = lastSome l := by simp [lastSome]
      rw [this]
      rfl
    | some a =>
      have hcons : lastSome (some a :: l) = (a :: l.filterMap id).getLast? := by
        simp [lastSome]
      rw [hcons]
      rcases hfl : l.filterMap id with _ | ⟨y, ys⟩
      · have : lastSome l = none := by simp [lastSome, hfl]
        rw [this]
        rfl
      · have h1 : lastSome l = (y :: ys).getLast? := by rw [lastSome, hfl]
        have h2 : (a :: y :: ys).getLast? = (y :: ys).getLast? :=
          List.getLast?_cons_cons
        rw [h2, ← h1]
        rcases hls : lastSome l with _ | z
        · rw [h1] at hls
          rcases List.getLast?_eq_none_iff.mp hls
        · rfl

lemma foldlLast_none (l : List (Option ℚ)) : foldlLast none l = lastSome l := by
  rw [foldlLast_eq]
  cases lastSome l with
  | none => rfl
  | some x => rfl

lemma ffillFundingAux_length (last : Option ℚ) (l : List MRow) :
    (ffillFundingAux last l).length = l.length := by
  induction l generalizing last with
  | nil => rfl
  | cons r rs ih => simp [ffillFundingAux, ih]

lemma ffillFundingAux_getElem (l : List MRow) (last : Option ℚ) (j : Nat)
    (hj : j < l.length) (hj2 : j < (ffillFundingAux last l).length) :
    (ffillFundingAux last l)[j] =
      { l[j] with
        fundingRate := foldlLast last ((l.take (j + 1)).map MRow.fundingRate) } := by
  induction l generalizing last j with
  | nil => exact absurd hj (by simp)
  | cons r rs ih =>
    cases j with
    | zero =>
      simp [ffillFundingAux, foldlLast]
    | succ j =>
      have hjr : j < rs.length := by simpa using hj
      have hjr2 : j < (ffillFundingAux (ffillStep last r.fundingRate) rs).length := by
        rw [ffillFundingAux_length]
        exact hjr
      simp only [ffillFundingAux, List.getElem_cons_succ, List.take_succ_cons,
        List.map_cons]
      rw [ih (ffillStep last r.fundingRate) j hjr hjr2]
      have : foldlLast last (r.fundingRate :: (rs.take (j + 1)).map MRow.fundingRate) =
          foldlLast (ffillStep last r.fundingRate) ((rs.take (j + 1)).map MRow.fundingRate) := by
        simp [foldlLast]
      rw [this]

lemma joinWith_eq_map (t : List MRow) (s : List (Nat × β))
    (set : MRow → Option β → MRow) (h : (s.map Prod.fst).Nodup) :
    joinWith t s set = t.map fun r => set r (lookupKey s r.timestamp_utc) := by
  unfold joinWith
  rw [leftJoin_eq_map_lookup _ _ s h, List.map_map]
  rfl

lemma mergeAll_some_eq (df : List KRow) (m i : List (Nat × PriceOHLC))
    (f o : List (Nat × ℚ)) (hm : (m.map Prod.fst).Nodup)
    (hi : (i.map Prod.fst).Nodup) (hf : (f.map Prod.fst).Nodup)
    (ho : (o.map Prod.fst).Nodup) :
    mergeAll df (some m) (some i) (some f) (some o) =
      (ffillFundingAux none (df.map fun r =>
        MRow.mk r (lookupKey m r.timestamp_utc) (lookupKey i r.timestamp_utc)
          (lookupKey f r.timestamp_utc) none)).map
        fun r => { r with open_interest := lookupKey o r.timestamp_utc } := by
  have h0 : mergeAll df (some m) (some i) (some f) (some o) =
      joinWith (ffillFunding (joinWith (joinWith (joinWith
        (df.map fun r => MRow.mk r none none none none)
        m (fun r v => { r with mark := v }))
        i (fun r v => { r with index := v }))
        f (fun r v => { r with fundingRate := v })))
        o (fun r v => { r with open_interest := v }) := rfl
  rw [h0, joinWith_eq_map _ m _ hm, joinWith_eq_map _ i _ hi,
    joinWith_eq_map _ f _ hf, List.map_map, List.map_map, List.map_map]
  unfold ffillFunding
  rw [joinWith_eq_map _ o _ ho]
  rfl

/-- C3: with all four secondary series present and each keyed uniquely
(the script's per-series validation deduplicates mark and index before
the merge), the Step 6 merge forward-fills exactly the `fundingRate`
column: row `j` of the merged table carries the most recent non-null
funding match among rows `0..j` (and is null before the first match),
while its mark, index and open-interest cells are exactly the lookup of
its own timestamp — `none` where there is no match, with no forward
fill — and the primary row itself is unchanged. -/
theorem mergeAll_ffill_only_fundingRate (df : List KRow)
    (m i : List (Nat × PriceOHLC)) (f o : List (Nat × ℚ))
    (hm : (m.map Prod.fst).Nodup) (hi : (i.map Prod.fst).Nodup)
    (hf : (f.map Prod.fst).Nodup) (ho : (o.map Prod.fst).Nodup) :
    (mergeAll df (some m) (some i) (some f) (some o)).length = df.length ∧
    ∀ (j : Nat) (hj : j < df.length)
      (hj2 : j < (mergeAll df (some m) (some i) (some f) (some o)).length),
      (mergeAll df (some m) (some i) (some f) (some o))[j].k = df[j] ∧
      (mergeAll df (some m) (some i) (some f) (some o))[j].fundingRate =
        lastSome ((df.take (j + 1)).map fun r => lookupKey f r.timestamp_utc) ∧
      (mergeAll df (some m) (some i) (some f) (some o))[j].mark =
        lookupKey m df[j].timestamp_utc ∧
      (mergeAll df (some m) (some i) (some f) (some o))[j].index =
        lookupKey i df[j].timestamp_utc ∧
      (mergeAll df (some m) (some i) (some f) (some o))[j].open_interest =
        lookupKey o df[j].timestamp_utc := by
  simp only [mergeAll_some_eq df m i f o hm hi hf ho]
  constructor
  · rw [List.length_map, ffillFundingAux_length, List.length_map]
  · intro j hj hj2
    have hjm : j < (df.map fun r =>
        MRow.mk r (lookupKey m r.timestamp_utc) (lookupKey i r.timestamp_utc)
          (lookupKey f r.timestamp_utc) none).length := by
      rw [List.length_map]
      exact hj
    have hja : j < (ffillFundingAux none (df.map fun r =>
        MRow.mk r (lookupKey m r.timestamp_utc) (lookupKey i r.timestamp_utc)
          (lookupKey f r.timestamp_utc) none)).length := by
      rw [ffillFundingAux_length]
      exact hjm
    simp only [List.getElem_map]
    rw [ffillFundingAux_getElem _ none j hjm hja]
    simp only [List.getElem_map]
    refine ⟨by trivial, ?_, by trivial, by trivial, by trivial⟩
    show foldlLast none (((df.map fun r =>
        MRow.mk r (lookupKey m r.timestamp_utc) (lookupKey i r.timestamp_utc)
          (lookupKey f r.timestamp_utc) none).take (j + 1)).map MRow.fundingRate) =
      lastSome ((df.take (j + 1)).map fun r => lookupKey f r.timestamp_utc)
    rw [← List.map_take, List.map_map, foldlLast_none]
    rfl

/-- Concrete primary frame for the C3 witness: two minutes. -/
def c3df : List KRow :=
  [KRow.mk 1 1 1 1 10 100 5 4 40 0 6 60,
   KRow.mk 1 1 1 1 10 100 5 4 40 60000 6 60]

/-- Concrete mark series for the C3 witness: matches minute 0 only. -/
def c3m : List (Nat × PriceOHLC) := [(0, PriceOHLC.mk 2 2 2 2)]

/-- Concrete (empty) index series for the C3 witness. -/
def c3i : List (Nat × PriceOHLC) := []

/-- Concrete funding series for the C3 witness: one event at minute 0,
forward-filled into minute 1. -/
def c3f : List (Nat × ℚ) := [(0, 1)]

/-- Concrete open-interest series for the C3 witness: matches minute 1. -/
def c3o : List (Nat × ℚ) := [(60000, 3)]

/-- Witness for C3: the theorem applied at the concrete series above,
instantiated at row 1 (whose funding value is forward-filled from
row 0). -/
theorem mergeAll_ffill_only_fundingRate_witness :
    (mergeAll c3df (some c3m) (some c3i) (some c3f) (some c3o)).length =
      c3df.length ∧
    ((mergeAll c3df (some c3m) (some c3i) (some c3f) (some c3o)).get
      ⟨1, by decide⟩).k = c3df.get ⟨1, by decide⟩ ∧
    ((mergeAll c3df (some c3m) (some c3i) (some c3f) (some c3o)).get
      ⟨1, by decide⟩).fundingRate =
      lastSome ((c3df.take 2).map fun r => lookupKey c3f r.timestamp_utc) ∧
    ((mergeAll c3df (some c3m) (some c3i) (some c3f) (some c3o)).get
      ⟨1, by decide⟩).mark =
      lookupKey c3m (c3df.get ⟨1, by decide⟩).timestamp_utc ∧
    ((mergeAll c3df (some c3m) (some c3i) (some c3f) (some c3o)).get
      ⟨1, by decide⟩).index =
      lookupKey c3i (c3df.get ⟨1, by decide⟩).timestamp_utc ∧
    ((mergeAll c3df (some c3m) (some c3i) (some c3f) (some c3o)).get
      ⟨1, by decide⟩).open_interest =
      lookupKey c3o (c3df.get ⟨1, by decide⟩).timestamp_utc := by
  have h := mergeAll_ffill_only_fundingRate c3df c3m c3i c3f c3o
    (by decide) (by decide) (by decide) (by decide)
  have h2 := h.2 1 (by decide) (by decide)
  exact ⟨h.1, h2.1, h2.2.1, h2.2.2.1, h2.2.2.2.1, h2.2.2.2.2⟩

/-! ### The retrying downloader (claims C4, C9) -/

lemma downloadAux_succ (resp : Nat → Resp β) (retries fuel attempt : Nat) :
    downloadAux resp retries (fuel + 1) attempt =
      match resp attempt with
      | Resp.ok status body =>
        if status = 200 then some body
        else if status = 404 then none
        else downloadAux resp retries fuel (attempt + 1)
      | Resp.err =>
        if attempt = retries - 1 then none
        else downloadAux resp retries fuel (attempt + 1) := rfl

/-- C4: a URL whose first two attempts raise transport errors and whose
third attempt answers status 200 with body `B` downloads to `B` within the
3-attempt budget — the same result as a URL answering 200 with `B`
immediately; and a URL answering 404 on every attempt downloads to `none`
(no data), never raising. -/
theorem download_retry_equiv_and_404 (B : β)
    (resp respNow resp404 : Nat → Resp β) (bodies : Nat → β)
    (h0 : resp 0 = Resp.err) (h1 : resp 1 = Resp.err)
    (h2 : resp 2 = Resp.ok 200 B)
    (hnow : respNow 0 = Resp.ok 200 B)
    (h404 : ∀ n, resp404 n = Resp.ok 404 (bodies n)) :
    download_single_file resp 3 = some B ∧
    download_single_file resp 3 = download_single_file respNow 3 ∧
    download_single_file resp404 3 = none := by
  have hr : download_single_file resp 3 = some B := by
    show downloadAux resp 3 (2 + 1) 0 = some B
    rw [downloadAux_succ]
    simp only [h0]
    norm_num
    show downloadAux resp 3 (1 + 1) 1 = some B
    rw [downloadAux_succ]
    simp only [h1]
    norm_num
    show downloadAux resp 3 (0 + 1) 2 = some B
    rw [downloadAux_succ]
    simp [h2]
  have hn : download_single_file respNow 3 = some B := by
    show downloadAux respNow 3 (2 + 1) 0 = some B
    rw [downloadAux_succ]
    simp [hnow]
  have h4 : download_single_file resp404 3 = none := by
    show downloadAux resp404 3 (2 + 1) 0 = none
    rw [downloadAux_succ]
    simp only [h404 0]
    norm_num
  exact ⟨hr, hr.trans hn.symm, h4⟩

/-- Witness for C4: concrete response sequences (two errors then 200,
immediate 200, always 404). -/
theorem download_retry_equiv_and_404_witness :
    download_single_file
      (fun n => if n < 2 then Resp.err else Resp.ok 200 (7 : ℚ)) 3 = some 7 ∧
    download_single_file
      (fun n => if n < 2 then Resp.err else Resp.ok 200 (7 : ℚ)) 3 =
      download_single_file (fun _ => Resp.ok 200 (7 : ℚ)) 3 ∧
    download_single_file (fun n => Resp.ok 404 ((n : ℚ))) 3 = none :=
  download_retry_equiv_and_404 7
    (fun n => if n < 2 then Resp.err else Resp.ok 200 (7 : ℚ))
    (fun _ => Resp.ok 200 (7 : ℚ))
    (fun n => Resp.ok 404 ((n : ℚ)))
    (fun n => ((n : ℚ)))
    (by decide) (by decide) (by decide) (by decide) (fun n => rfl)

/-- C9: `download_single_file` is total at its interface: for every URL
and every sequence of per-attempt outcomes (arbitrary status codes and/or
raised transport errors), it either returns `none` or returns the body of
a status-200 response received on one of its at-most-`retries` attempts;
every code path of its `try`/`except` body returns, so no exception
escapes to the caller. -/
theorem download_single_file_total (resp : Nat → Resp β) (retries : Nat) :
    download_single_file resp retries = none ∨
    ∃ n b, n < retries ∧ resp n = Resp.ok 200 b ∧
      download_single_file resp retries = some b := by
  have haux : ∀ fuel attempt, downloadAux resp retries fuel attempt = none ∨
      ∃ n b, attempt ≤ n ∧ n < attempt + fuel ∧ resp n = Resp.ok 200 b ∧
        downloadAux resp retries fuel attempt = some b := by
    intro fuel
    induction fuel with
    | zero =>
      intro attempt
      left
      rfl
    | succ fuel ih =>
      intro attempt
      rw [downloadAux_succ]
      cases hr : resp attempt with
      | ok s body =>
        by_cases hs : s = 200
        · subst hs
          right
          exact ⟨attempt, body, le_refl _, by omega, hr, by simp⟩
        · by_cases hs4 : s = 404
          · left
            simp [hs, hs4]
          · simp only [hs, hs4, if_false]
            rcases ih (attempt + 1) with h | ⟨n, b, hn1, hn2, hb, hres⟩
            · left
              exact h
            · right
              exact ⟨n, b, by omega, by omega, hb, hres⟩
      | err =>
        by_cases ha : attempt = retries - 1
        · left
          simp [ha]
        · simp only [ha, if_false]
          rcases ih (attempt + 1) with h | ⟨n, b, hn1, hn2, hb, hres⟩
          · left
            exact h
          · right
            exact ⟨n, b, by omega, by omega, hb, hres⟩
  rcases haux retries 0 with h | ⟨n, b, hn1, hn2, hb, hres⟩
  · left
    exact h
  · right
    exact ⟨n, b, by omega, hb, hres⟩

/-- Witness for C9: the theorem applied to a URL whose every attempt
raises. -/
theorem download_single_file_total_witness :
    download_single_file (fun _ => (Resp.err : Resp ℚ)) 3 = none ∨
    ∃ n b, n < 3 ∧ (fun _ => (Resp.err : Resp ℚ)) n = Resp.ok 200 b ∧
      download_single_file (fun _ => (Resp.err : Resp ℚ)) 3 = some b :=
  download_single_file_total (fun _ => (Resp.err : Resp ℚ)) 3

/-! ### Open-interest pagination (claim C6) -/

lemma openInterestLoop_succ (ep : Option Nat → List OISnap) (fuel : Nat)
    (startTime : Option Nat) :
    openInterestLoop ep (fuel + 1) startTime =
      (let data := ep startTime
       if data.isEmpty then ([], [startTime])
       else if data.length < 500 then (data, [startTime])
       else
         let rest := openInterestLoop ep fuel
           (some ((data.getLastD (OISnap.mk 0 0)).timestamp + 60000))
         (data ++ rest.1, startTime :: rest.2)) := rfl

/-- C6: on an endpoint answering a full 500-row page, a second full
500-row page at the cursor `last timestamp of page one + 60000 ms`, and a
200-row page at the cursor `last timestamp of page two + 60000 ms`, the
polling loop collects exactly the 1200 snapshots of the three pages and
issues exactly three requests (none after the short page), each request's
`startTime` being the previous page's last timestamp plus one minute. -/
theorem openInterest_pagination_500_500_200 (p1 p2 p3 : List OISnap)
    (ep : Option Nat → List OISnap) (fuel : Nat)
    (h1 : p1.length = 500) (h2 : p2.length = 500) (h3 : p3.length = 200)
    (e1 : ep none = p1)
    (e2 : ep (some ((p1.getLastD (OISnap.mk 0 0)).timestamp + 60000)) = p2)
    (e3 : ep (some ((p2.getLastD (OISnap.mk 0 0)).timestamp + 60000)) = p3)
    (hf : 3 ≤ fuel) :
    (openInterestLoop ep fuel none).1 = p1 ++ p2 ++ p3 ∧
    (openInterestLoop ep fuel none).2 =
      [none, some ((p1.getLastD (OISnap.mk 0 0)).timestamp + 60000),
       some ((p2.getLastD (OISnap.mk 0 0)).timestamp + 60000)] := by
  obtain ⟨f, rfl⟩ : ∃ f, fuel = f + 3 := ⟨fuel - 3, by omega⟩
  have hne1 : p1.isEmpty = false := by
    cases p1 with
    | nil => simp at h1
    | cons a l => rfl
  have hne2 : p2.isEmpty = false := by
    cases p2 with
    | nil => simp at h2
    | cons a l => rfl
  have hne3 : p3.isEmpty = false := by
    cases p3 with
    | nil => simp at h3
    | cons a l => rfl
  have s3 : openInterestLoop ep (f + 1)
      (some ((p2.getLastD (OISnap.mk 0 0)).timestamp + 60000)) =
      (p3, [some ((p2.getLastD (OISnap.mk 0 0)).timestamp + 60000)]) := by
    rw [openInterestLoop_succ]
    simp only [e3]
    rw [if_neg (by simp [hne3]), if_pos (by omega)]
  have s2 : openInterestLoop ep (f + 2)
      (some ((p1.getLastD (OISnap.mk 0 0)).timestamp + 60000)) =
      (p2 ++ p3,
       [some ((p1.getLastD (OISnap.mk 0 0)).timestamp + 60000),
        some ((p2.getLastD (OISnap.mk 0 0)).timestamp + 60000)]) := by
    rw [show f + 2 = (f + 1) + 1 by omega, openInterestLoop_succ]
    simp only [e2]
    rw [if_neg (by simp [hne2]), if_neg (by omega), s3]
  have s1 : openInterestLoop ep (f + 3) none =
      (p1 ++ (p2 ++ p3),
       [none, some ((p1.getLastD (OISnap.mk 0 0)).timestamp + 60000),
        some ((p2.getLastD (OISnap.mk 0 0)).timestamp + 60000)]) := by
    rw [show f + 3 = (f + 2) + 1 by omega, openInterestLoop_succ]
    simp only [e1]
    rw [if_neg (by simp [hne1]), if_neg (by omega), s2]
  refine ⟨?_, ?_⟩
  · rw [s1]
    exact (List.append_assoc p1 p2 p3).symm
  · rw [s1]

/-- Concrete first page for the C6 witness: 500 minute snapshots. -/
def c6p1 : List OISnap :=
  (List.range 500).map fun n => OISnap.mk (n * 60000) 1

/-- Concrete second page for the C6 witness: 500 further snapshots. -/
def c6p2 : List OISnap :=
  (List.range 500).map fun n => OISnap.mk ((500 + n) * 60000) 2

/-- Concrete third page for the C6 witness: 200 final snapshots. -/
def c6p3 : List OISnap :=
  (List.range 200).map fun n => OISnap.mk ((1000 + n) * 60000) 3

/-- Concrete endpoint for the C6 witness, keyed by the `startTime`
cursor. -/
def c6ep : Option Nat → List OISnap := fun st =>
  match st with
  | none => c6p1
  | some c =>
    if c = 500 * 60000 then c6p2
    else if c = 1000 * 60000 then c6p3
    else []

set_option maxRecDepth 40000 in
/-- Witness for C6: the theorem applied to the concrete endpoint; 1200
snapshots are collected over exactly three requests. -/
theorem openInterest_pagination_500_500_200_witness :
    (openInterestLoop c6ep 3 none).1 = c6p1 ++ c6p2 ++ c6p3 ∧
    (openInterestLoop c6ep 3 none).2 =
      [none, some ((c6p1.getLastD (OISnap.mk 0 0)).timestamp + 60000),
       some ((c6p2.getLastD (OISnap.mk 0 0)).timestamp + 60000)] :=
  openInterest_pagination_500_500_200 c6p1 c6p2 c6p3 c6ep 3
    (by simp [c6p1]) (by simp [c6p2]) (by simp [c6p3])
    rfl rfl rfl (by omega)

/-! ### Taker-volume derivation (claim C7) -/

/-- C7: in the normalized primary series the derived taker-sell volumes
complement the taker-buy volumes exactly: for every row,
`taker_buy_base_vol + taker_sell_base_vol = volume` and
`taker_buy_quote_vol + taker_sell_quote_vol = quote_volume`.  The
equality is exact here because the script's floats are modelled as
rationals; over machine floats it is the floating-point-tolerance
statement of the spec. -/
theorem taker_volumes_sum (raw : List RawKline) (r : KRow)
    (hr : r ∈ normalizeKlines raw) :
    r.taker_buy_base_vol + r.taker_sell_base_vol = r.volume ∧
    r.taker_buy_quote_vol + r.taker_sell_quote_vol = r.quote_volume := by
  unfold normalizeKlines at hr
  rw [List.mem_filterMap] at hr
  obtain ⟨x, hx, hmap⟩ := hr
  cases hx2 : x.open_time with
  | none =>
    rw [hx2] at hmap
    exact absurd hmap (by simp)
  | some t =>
    rw [hx2] at hmap
    rw [Option.map_some', Option.some.injEq] at hmap
    rw [← hmap]
    exact ⟨by
        show x.taker_buy_base_vol + (x.volume - x.taker_buy_base_vol) = x.volume
        ring,
      by
        show x.taker_buy_quote_vol + (x.quote_volume - x.taker_buy_quote_vol) =
          x.quote_volume
        ring⟩

/-- Witness for C7: the theorem applied to the row normalized from one
concrete raw kline. -/
theorem taker_volumes_sum_witness :
    (KRow.mk 1 2 0 1 10 100 5 4 40 0 6 60).taker_buy_base_vol +
      (KRow.mk 1 2 0 1 10 100 5 4 40 0 6 60).taker_sell_base_vol =
      (KRow.mk 1 2 0 1 10 100 5 4 40 0 6 60).volume ∧
    (KRow.mk 1 2 0 1 10 100 5 4 40 0 6 60).taker_buy_quote_vol +
      (KRow.mk 1 2 0 1 10 100 5 4 40 0 6 60).taker_sell_quote_vol =
      (KRow.mk 1 2 0 1 10 100 5 4 40 0 6 60).quote_volume :=
  taker_volumes_sum [RawKline.mk (some 0) 1 2 0 1 10 59999 100 5 4 40 0]
    (KRow.mk 1 2 0 1 10 100 5 4 40 0 6 60)
    (by
      have hn : normalizeKlines
          [RawKline.mk (some 0) 1 2 0 1 10 59999 100 5 4 40 0] =
          [KRow.mk 1 2 0 1 10 100 5 4 40 0 (10 - 4) (100 - 40)] := rfl
      rw [hn]
      norm_num)

/-! ### Validator idempotence (claim C8) -/

lemma duplicatedCount_eq_zero (key : α → Nat) (seen : List Nat)
    (df : List α) (hseen : ∀ r ∈ df, key r ∉ seen)
    (hnd : (df.map key).Nodup) : duplicatedCount key seen df = 0 := by
  induction df generalizing seen with
  | nil => rfl
  | cons r rs ih =>
    rw [List.map_cons, List.nodup_cons] at hnd
    obtain ⟨hr, hrs⟩ := hnd
    have hseen2 : ∀ x ∈ rs, key x ∉ key r :: seen := by
      intro x hx hmem
      rcases List.mem_cons.mp hmem with h | h
      · exact hr (h ▸ List.mem_map_of_mem key hx)
      · exact hseen x (List.mem_cons_of_mem _ hx) h
    simp only [duplicatedCount]
    rw [if_neg (hseen r (List.mem_cons_self r rs)), ih _ hseen2 hrs]

/-- C8: the Validator is the identity on clean input: on a table whose
`timestamp_utc` keys are unique and sorted ascending, `validate_data`
returns exactly the same rows in the same order (its duplicate check
finds nothing and its other checks are diagnostics only), so a second
application changes nothing either. -/
theorem validate_data_idempotent_on_clean (key : α → Nat) (df : List α)
    (h : df.Pairwise fun a b => key a < key b) :
    validate_data key df = df ∧
    validate_data key (validate_data key df) = validate_data key df := by
  have hnd : (df.map key).Nodup :=
    List.Pairwise.map key (fun a b hab => Nat.ne_of_lt hab) h
  have hval : validate_data key df = df := by
    unfold validate_data
    rw [duplicatedCount_eq_zero key [] df (by intro x _ hx; simp at hx) hnd]
    simp
  exact ⟨hval, by rw [hval, hval]⟩

/-- Witness for C8: the theorem applied to a concrete clean table. -/
theorem validate_data_idempotent_on_clean_witness :
    validate_data (fun x => x) [1, 2, 3] = [1, 2, 3] ∧
    validate_data (fun x => x) (validate_data (fun x => x) [1, 2, 3]) =
      validate_data (fun x => x) [1, 2, 3] :=
  validate_data_idempotent_on_clean (fun x => x) [1, 2, 3] (by decide)

/-! ### Fatal-error behaviour (claim C5) -/

/-- C5: the pipeline raises exactly when the primary klines fetch yields
no data at all (no successfully decoded batch): with an empty klines
collection it stops with `"Failed to fetch klines data!"`, and with any
non-empty klines collection it completes — whatever the state of the
secondary series (absent or present); download failures surface only as
missing batches, and validation findings never block completion. -/
theorem pipeline_aborts_iff_klines_empty (klineBatches : List (List RawKline))
    (markBatches indexBatches : List (List RawMark))
    (fundBatches : List (List RawFund)) (oi_data : List OISnap) :
    ((runPipeline klineBatches markBatches indexBatches fundBatches
        oi_data).isOk = true ↔ klineBatches ≠ []) ∧
    runPipeline [] markBatches indexBatches fundBatches oi_data =
      Except.error "Failed to fetch klines data!" := by
  constructor
  · cases klineBatches with
    | nil =>
      constructor
      · intro h
        simp [runPipeline, fetch_binance_zip_parallel, Except.isOk,
          Except.toBool] at h
      · intro h
        exact absurd rfl h
    | cons b bs =>
      constructor
      · intro _ h
        exact List.noConfusion h
      · intro _
        rfl
  · rfl

/-- Witness for C5: a one-batch run completes; the empty-klines run
aborts with the script's exception message. -/
theorem pipeline_aborts_iff_klines_empty_witness :
    ((runPipeline [[RawKline.mk (some 0) 1 2 0 1 10 59999 100 5 4 40 0]]
        [] [] [] []).isOk = true ↔
      [[RawKline.mk (some 0) 1 2 0 1 10 59999 100 5 4 40 0]] ≠ []) ∧
    runPipeline [] [] [] [] [] =
      Except.error "Failed to fetch klines data!" :=
  pipeline_aborts_iff_klines_empty
    [[RawKline.mk (some 0) 1 2 0 1 10 59999 100 5 4 40 0]] [] [] [] []

/-! ### Absent secondary series (claim C2) -/

lemma mem_step7_subset (full : List MRow) (r : MRow) (hr : r ∈ step7 full) :
    r ∈ full := by
  unfold step7 dedupeBy at hr
  exact (mem_sortByKey MRow.timestamp_utc r full).mp
    (mem_of_mem_dropDuplicatesBy MRow.timestamp_utc [] _ r hr)

lemma mem_joinWith (t : List MRow) (s : List (Nat × β))
    (set : MRow → Option β → MRow) (row : MRow)
    (hrow : row ∈ joinWith t s set) : ∃ r v, r ∈ t ∧ row = set r v := by
  unfold joinWith at hrow
  rw [List.mem_map] at hrow
  obtain ⟨p, hp, hset⟩ := hrow
  exact ⟨p.1, p.2, fst_mem_of_mem_leftJoin t _ s p hp, hset.symm⟩

lemma mem_ffillFundingAux (l : List MRow) (last : Option ℚ) (row : MRow)
    (hrow : row ∈ ffillFundingAux last l) :
    ∃ r ∈ l, row.k = r.k ∧ row.mark = r.mark ∧ row.index = r.index ∧
      row.open_interest = r.open_interest := by
  induction l generalizing last with
  | nil => simp [ffillFundingAux] at hrow
  | cons r rs ih =>
    simp only [ffillFundingAux] at hrow
    rcases List.mem_cons.mp hrow with h | h
    · exact ⟨r, List.mem_cons_self _ _,
        by rw [h], by rw [h], by rw [h], by rw [h]⟩
    · obtain ⟨x, hx, hk⟩ := ih _ h
      exact ⟨x, List.mem_cons_of_mem _ hx, hk⟩

lemma optJoin_preserves (s : Option (List (Nat × β))) (t : List MRow)
    (set : MRow → Option β → MRow) (P : MRow → Prop)
    (hset : ∀ r v, P r → P (set r v)) (ht : ∀ r ∈ t, P r) :
    ∀ row ∈ optJoin s t set, P row := by
  cases s with
  | none => exact ht
  | some x =>
    intro row hrow
    obtain ⟨r, v, hr, rfl⟩ := mem_joinWith t x set row hrow
    exact hset r v (ht r hr)

lemma optFundingStep_preserves_mark (funding : Option (List (Nat × ℚ)))
    (t : List MRow) (ht : ∀ r ∈ t, r.mark = none) :
    ∀ row ∈ optFundingStep funding t, row.mark = none := by
  cases funding with
  | none => exact ht
  | some f =>
    intro row hrow
    obtain ⟨r, hr, _, hm, _, _⟩ := mem_ffillFundingAux _ none row hrow
    rw [hm]
    obtain ⟨r2, v, hr2, rfl⟩ := mem_joinWith t f _ r hr
    exact ht r2 hr2

lemma optFundingStep_preserves_index (funding : Option (List (Nat × ℚ)))
    (t : List MRow) (ht : ∀ r ∈ t, r.index = none) :
    ∀ row ∈ optFundingStep funding t, row.index = none := by
  cases funding with
  | none => exact ht
  | some f =>
    intro row hrow
    obtain ⟨r, hr, _, _, hi, _⟩ := mem_ffillFundingAux _ none row hrow
    rw [hi]
    obtain ⟨r2, v, hr2, rfl⟩ := mem_joinWith t f _ r hr
    exact ht r2 hr2

lemma optFundingStep_preserves_oi (funding : Option (List (Nat × ℚ)))
    (t : List MRow) (ht : ∀ r ∈ t, r.open_interest = none) :
    ∀ row ∈ optFundingStep funding t, row.open_interest = none := by
  cases funding with
  | none => exact ht
  | some f =>
    intro row hrow
    obtain ⟨r, hr, _, _, _, ho⟩ := mem_ffillFundingAux _ none row hrow
    rw [ho]
    obtain ⟨r2, v, hr2, rfl⟩ := mem_joinWith t f _ r hr
    exact ht r2 hr2

lemma init_frame_fields (df : List KRow) :
    ∀ r ∈ (df.map fun r => MRow.mk r none none none none),
      r.mark = none ∧ r.index = none ∧ r.fundingRate = none ∧
        r.open_interest = none := by
  intro r hr
  rw [List.mem_map] at hr
  obtain ⟨x, _, rfl⟩ := hr
  exact ⟨rfl, rfl, rfl, rfl⟩

lemma mergeAll_mark_none (df : List KRow)
    (index : Option (List (Nat × PriceOHLC)))
    (funding oi : Option (List (Nat × ℚ))) :
    ∀ row ∈ mergeAll df none index funding oi, row.mark = none := by
  have h1 : ∀ r ∈ (df.map fun r => MRow.mk r none none none none),
      r.mark = none := fun r hr => (init_frame_fields df r hr).1
  have h2 := optJoin_preserves index _
    (fun r v => { r with index := v }) (fun r => r.mark = none)
    (fun r v h => h) h1
  have h3 := optFundingStep_preserves_mark funding _ h2
  exact optJoin_preserves oi _ (fun r v => { r with open_interest := v })
    (fun r => r.mark = none) (fun r v h => h) h3

lemma mergeAll_index_none (df : List KRow)
    (mark : Option (List (Nat × PriceOHLC)))
    (funding oi : Option (List (Nat × ℚ))) :
    ∀ row ∈ mergeAll df mark none funding oi, row.index = none := by
  have h1 : ∀ r ∈ (df.map fun r => MRow.mk r none none none none),
      r.index = none := fun r hr => (init_frame_fields df r hr).2.1
  have h2 := optJoin_preserves mark _
    (fun r v => { r with mark := v }) (fun r => r.index = none)
    (fun r v h => h) h1
  have h3 := optFundingStep_preserves_index funding _ h2
  exact optJoin_preserves oi _ (fun r v => { r with open_interest := v })
    (fun r => r.index = none) (fun r v h => h) h3

lemma mergeAll_funding_none (df : List KRow)
    (mark index : Option (List (Nat × PriceOHLC)))
    (oi : Option (List (Nat × ℚ))) :
    ∀ row ∈ mergeAll df mark index none oi, row.fundingRate = none := by
  have h1 : ∀ r ∈ (df.map fun r => MRow.mk r none none none none),
      r.fundingRate = none := fun r hr => (init_frame_fields df r hr).2.2.1
  have h2 := optJoin_preserves mark _
    (fun r v => { r with mark := v }) (fun r => r.fundingRate = none)
    (fun r v h => h) h1
  have h3 := optJoin_preserves index _
    (fun r v => { r with index := v }) (fun r => r.fundingRate = none)
    (fun r v h => h) h2
  exact optJoin_preserves oi _ (fun r v => { r with open_interest := v })
    (fun r => r.fundingRate = none) (fun r v h => h) h3

lemma mergeAll_oi_none (df : List KRow)
    (mark index : Option (List (Nat × PriceOHLC)))
    (funding : Option (List (Nat × ℚ))) :
    ∀ row ∈ mergeAll df mark index funding none, row.open_interest = none := by
  have h1 : ∀ r ∈ (df.map fun r => MRow.mk r none none none none),
      r.open_interest = none := fun r hr => (init_frame_fields df r hr).2.2.2
  have h2 := optJoin_preserves mark _
    (fun r v => { r with mark := v }) (fun r => r.open_interest = none)
    (fun r v h => h) h1
  have h3 := optJoin_preserves index _
    (fun r v => { r with index := v }) (fun r => r.open_interest = none)
    (fun r v h => h) h2
  exact optFundingStep_preserves_oi funding _ h3

/-- The column list of a completed run (`[]` on the aborted run). -/
def okColumns (e : Except String (List MRow × List String)) : List String :=
  match e with
  | Except.ok pr => pr.2
  | Except.error _ => []

/-- The saved table of a completed run (`[]` on the aborted run). -/
def okTable (e : Except String (List MRow × List String)) : List MRow :=
  match e with
  | Except.ok pr => pr.1
  | Except.error _ => []

lemma markCols_absent (b1 b2 b3 : Bool) :
    "mark_open" ∉ mergedColumns false b1 b2 b3 ∧
    "mark_high" ∉ mergedColumns false b1 b2 b3 ∧
    "mark_low" ∉ mergedColumns false b1 b2 b3 ∧
    "mark_close" ∉ mergedColumns false b1 b2 b3 := by
  cases b1 <;> cases b2 <;> cases b3 <;> decide

lemma indexCols_absent (b1 b2 b3 : Bool) :
    "index_open" ∉ mergedColumns b1 false b2 b3 ∧
    "index_high" ∉ mergedColumns b1 false b2 b3 ∧
    "index_low" ∉ mergedColumns b1 false b2 b3 ∧
    "index_close" ∉ mergedColumns b1 false b2 b3 := by
  cases b1 <;> cases b2 <;> cases b3 <;> decide

lemma fundingCol_absent (b1 b2 b3 : Bool) :
    "fundingRate" ∉ mergedColumns b1 b2 false b3 := by
  cases b1 <;> cases b2 <;> cases b3 <;> decide

lemma oiCol_absent (b1 b2 b3 : Bool) :
    "open_interest" ∉ mergedColumns b1 b2 b3 false := by
  cases b1 <;> cases b2 <;> cases b3 <;> decide

/-- Counterexample for C2: a concrete run whose mark-price fetch produced
no data completes, yet the merged output's column list does not contain
`mark_open` at all — the merge for the absent series is skipped, so its
columns are not present (all-null or otherwise), contradicting the claim
that the output "contains that series' columns with a null value in
every row". -/
theorem absent_series_all_null_counterexample :
    (runPipeline [[RawKline.mk (some 0) 1 2 0 1 10 59999 100 5 4 40 0]]
        [] [] [] []).isOk = true ∧
    "mark_open" ∉ okColumns
      (runPipeline [[RawKline.mk (some 0) 1 2 0 1 10 59999 100 5 4 40 0]]
        [] [] [] []) :=
  ⟨rfl, by decide⟩

/-- C2 (amended): for every run in which a secondary series (mark price,
index price, funding rate, or open interest) is entirely absent (its
fetch produced no data), the pipeline still completes, but that series'
merge is skipped, so its columns are omitted from the merged output
altogether — they are not present as all-null columns — and no row of the
saved table carries a value for that series. -/
theorem absent_series_columns_omitted (b : List RawKline)
    (kb : List (List RawKline)) (mb ib : List (List RawMark))
    (fb : List (List RawFund)) (oi : List OISnap) :
    ((runPipeline (b :: kb) [] ib fb oi).isOk = true ∧
      "mark_open" ∉ okColumns (runPipeline (b :: kb) [] ib fb oi) ∧
      "mark_high" ∉ okColumns (runPipeline (b :: kb) [] ib fb oi) ∧
      "mark_low" ∉ okColumns (runPipeline (b :: kb) [] ib fb oi) ∧
      "mark_close" ∉ okColumns (runPipeline (b :: kb) [] ib fb oi) ∧
      ∀ row ∈ okTable (runPipeline (b :: kb) [] ib fb oi),
        row.mark = none) ∧
    ((runPipeline (b :: kb) mb [] fb oi).isOk = true ∧
      "index_open" ∉ okColumns (runPipeline (b :: kb) mb [] fb oi) ∧
      "index_high" ∉ okColumns (runPipeline (b :: kb) mb [] fb oi) ∧
      "index_low" ∉ okColumns (runPipeline (b :: kb) mb [] fb oi) ∧
      "index_close" ∉ okColumns (runPipeline (b :: kb) mb [] fb oi) ∧
      ∀ row ∈ okTable (runPipeline (b :: kb) mb [] fb oi),
        row.index = none) ∧
    ((runPipeline (b :: kb) mb ib [] oi).isOk = true ∧
      "fundingRate" ∉ okColumns (runPipeline (b :: kb) mb ib [] oi) ∧
      ∀ row ∈ okTable (runPipeline (b :: kb) mb ib [] oi),
        row.fundingRate = none) ∧
    ((runPipeline (b :: kb) mb ib fb []).isOk = true ∧
      "open_interest" ∉ okColumns (runPipeline (b :: kb) mb ib fb []) ∧
      ∀ row ∈ okTable (runPipeline (b :: kb) mb ib fb []),
        row.open_interest = none) := by
  refine ⟨⟨rfl, ?_, ?_, ?_, ?_, ?_⟩, ⟨rfl, ?_, ?_, ?_, ?_, ?_⟩,
    ⟨rfl, ?_, ?_⟩, ⟨rfl, ?_, ?_⟩⟩
  · exact (markCols_absent _ _ _).1
  · exact (markCols_absent _ _ _).2.1
  · exact (markCols_absent _ _ _).2.2.1
  · exact (markCols_absent _ _ _).2.2.2
  · intro row hrow
    exact mergeAll_mark_none _ _ _ _ row (mem_step7_subset _ row hrow)
  · exact (indexCols_absent _ _ _).1
  · exact (indexCols_absent _ _ _).2.1
  · exact (indexCols_absent _ _ _).2.2.1
  · exact (indexCols_absent _ _ _).2.2.2
  · intro row hrow
    exact mergeAll_index_none _ _ _ _ row (mem_step7_subset _ row hrow)
  · exact fundingCol_absent _ _ _
  · intro row hrow
    exact mergeAll_funding_none _ _ _ _ row (mem_step7_subset _ row hrow)
  · exact oiCol_absent _ _ _
  · intro row hrow
    exact mergeAll_oi_none _ _ _ _ row (mem_step7_subset _ row hrow)
